import Mathlib

/-!
Verification of the spreadsheet formula dependency and recalculation engine
(`FormulaEngine`, the `analyzeFormula` diagnostics, and their helpers).

The TypeScript source is embedded shallowly:
* JavaScript objects keyed by cell-address strings become association lists
  that keep insertion order (`objGet`, `objSet`, `objDelete`), matching
  `Object.entries` enumeration order for non-integer-like string keys.
* The regular-expression scans of the source are implemented as explicit
  maximal-munch scanners; each scanner is a direct transcription of the
  backtracking behaviour of the concrete pattern it embeds (the character
  classes involved are pairwise disjoint, so greedy maximal munch is exact).
* The expression evaluator of the engine is the external `hot-formula-parser`
  package, which is not part of the repository; it is modelled from the
  specification (see `specTokenize`, `specParseFormula`, `evalExpr`).
-/

set_option maxHeartbeats 1000000
set_option maxRecDepth 100000

/-- JavaScript-object get: first (and, for reachable states, only) binding of
the key, `undefined`/`none` when absent. -/
def objGet {α : Type} (k : String) : List (String × α) → Option α
  | [] => none
  | (k', v) :: t => if k' = k then some v else objGet k t

/-- JavaScript-object set: overwrite the existing binding in place (keeping its
position) or append a fresh binding at the end, as JS property update does. -/
def objSet {α : Type} (k : String) (v : α) : List (String × α) → List (String × α)
  | [] => [(k, v)]
  | (k', v') :: t => if k' = k then (k, v) :: t else (k', v') :: objSet k v t

/-- JavaScript `delete obj[k]`: remove every binding of the key. -/
def objDelete {α : Type} (k : String) : List (String × α) → List (String × α)
  | [] => []
  | (k', v') :: t => if k' = k then objDelete k t else (k', v') :: objDelete k t

/-- Keys of an object in enumeration order (`Object.keys`). -/
def objKeys {α : Type} (l : List (String × α)) : List String := l.map Prod.fst

/-- Character-code helpers; the source manipulates UTF-16 code units through
`charCodeAt`/`fromCharCode`, which agree with code points on the ASCII
ranges used here. -/
def chCode (c : Char) : Nat := c.toNat

/-- Uppercase ASCII letter, the class `[A-Z]` of a case-sensitive pattern. -/
def isUpperCh (c : Char) : Bool := 65 ≤ chCode c && chCode c ≤ 90

/-- Lowercase ASCII letter. -/
def isLowerCh (c : Char) : Bool := 97 ≤ chCode c && chCode c ≤ 122

/-- The class `[A-Z]` of a pattern carrying the `i` flag. -/
def isLetterCh (c : Char) : Bool := isUpperCh c || isLowerCh c

/-- The class `[0-9]`. -/
def isDigitCh (c : Char) : Bool := 48 ≤ chCode c && chCode c ≤ 57

/-- JavaScript regex word character `[A-Za-z0-9_]`, used by `\b`. -/
def isWordCh (c : Char) : Bool := isLetterCh c || isDigitCh c || c = '_'

/-- Whitespace, for the `\s*` of the function-call pattern. -/
def isSpaceCh (c : Char) : Bool := c = ' ' || c = '\t' || c = '\n' || c = '\r'

/-- JavaScript `String.prototype.toUpperCase` restricted to the ASCII range
(all characters the scanners can emit are ASCII). -/
def jsToUpperChar (c : Char) : Char :=
  if isLowerCh c then Char.ofNat (chCode c - 32) else c

def jsToUpper (s : List Char) : List Char := s.map jsToUpperChar

/-- Scalar cell values: number, text, boolean or null.  Error sentinels are
stored as their string codes, exactly as the engine stores them.  Numbers
are modelled as integers: every arithmetic step exercised by the verified
claims is exact integer arithmetic. -/
inductive Value where
  | num (q : Int)
  | str (s : String)
  | boolean (b : Bool)
  | null
  deriving DecidableEq

/-- The seven standard spreadsheet error kinds of the specification. -/
inductive ErrKind where
  | div0 | na | nameE | nullE | numE | ref | valueE
  deriving DecidableEq

/-- String code of each standard error kind. -/
def errString : ErrKind → String
  | .div0 => "#DIV/0!"
  | .na => "#N/A"
  | .nameE => "#NAME?"
  | .nullE => "#NULL!"
  | .numE => "#NUM!"
  | .ref => "#REF!"
  | .valueE => "#VALUE!"

/-- The seven standard sentinel strings. -/
def stdSentinels : List String :=
  ["#DIV/0!", "#N/A", "#NAME?", "#NULL!", "#NUM!", "#REF!", "#VALUE!"]

/-- Embeds `FormulaEngine.formatError`: the source looks the string up in a
map whose seven entries each send a standard sentinel to itself, defaulting
to `"#ERROR!"`. -/
def formatError (e : String) : String :=
  if stdSentinels.contains e then e else "#ERROR!"

/-- Recognize a stored error sentinel, per the specification's rule that
evaluation errors are "stored as the cell's value and propagated to
dependents". -/
def valueToErr : Value → Option ErrKind
  | .str s =>
      if s = "#DIV/0!" then some .div0
      else if s = "#N/A" then some .na
      else if s = "#NAME?" then some .nameE
      else if s = "#NULL!" then some .nullE
      else if s = "#NUM!" then some .numE
      else if s = "#REF!" then some .ref
      else if s = "#VALUE!" then some .valueE
      else none
  | _ => none

/-!
The reference extractor.  Source pattern (flags `gi`):
`(?:([A-Z]+[0-9]+)|(\$?[A-Z]+\$?[0-9]+)|([A-Z_][A-Z0-9_]*![A-Z]+[0-9]+))`
scanned with `exec` in a loop, each match pushed uppercased.  At every
position the three alternatives are tried left to right; within each
alternative the quantified classes are pairwise disjoint from what follows
them, so greedy maximal munch is the exact match semantics.
-/

/-- Match length of the first alternative `[A-Z]+[0-9]+` (with `i`). -/
def alt1Len (cs : List Char) : Option Nat :=
  let l := cs.takeWhile isLetterCh
  if l.isEmpty then none
  else
    let d := (cs.drop l.length).takeWhile isDigitCh
    if d.isEmpty then none else some (l.length + d.length)

/-- Match length of the second alternative `\$?[A-Z]+\$?[0-9]+` (with `i`). -/
def alt2Len (cs : List Char) : Option Nat :=
  let d1 : Nat := if cs.headD ' ' = '$' then 1 else 0
  let cs1 := cs.drop d1
  let l := cs1.takeWhile isLetterCh
  if l.isEmpty then none
  else
    let rest := cs1.drop l.length
    let d2 : Nat := if rest.headD ' ' = '$' then 1 else 0
    let d := (rest.drop d2).takeWhile isDigitCh
    if d.isEmpty then none else some (d1 + l.length + d2 + d.length)

/-- Match length of the third alternative `[A-Z_][A-Z0-9_]*![A-Z]+[0-9]+`
(with `i`). -/
def alt3Len (cs : List Char) : Option Nat :=
  match cs with
  | [] => none
  | c :: rest =>
    if isLetterCh c || c = '_' then
      let m := rest.takeWhile (fun x => isLetterCh x || isDigitCh x || x = '_')
      match rest.drop m.length with
      | '!' :: tail =>
        match alt1Len tail with
        | some n => some (1 + m.length + 1 + n)
        | none => none
      | _ => none
    else none

/-- First alternative that matches at the current position. -/
def refMatchLen (cs : List Char) : Option Nat :=
  match alt1Len cs with
  | some n => some n
  | none =>
    match alt2Len cs with
    | some n => some n
    | none => alt3Len cs

/-- The `exec` loop: emit a match and resume after it, or advance one
position.  Fuel is the remaining length; every step consumes at least one
character, so the initial fuel is always sufficient. -/
def refScan : Nat → List Char → List (List Char)
  | 0, _ => []
  | _ + 1, [] => []
  | fuel + 1, c :: rest =>
    match refMatchLen (c :: rest) with
    | some n => (c :: rest).take n :: refScan fuel ((c :: rest).drop n)
    | none => refScan fuel rest

/-- Embeds `FormulaEngine.extractCellReferences`: every match of the pattern,
in textual order, uppercased. -/
def extractCellReferences (formula : String) : List String :=
  (refScan formula.toList.length formula.toList).map (fun t => String.mk (jsToUpper t))

/-!
Address printing and parsing (`FormulaEngine.numberToColumn`,
`FormulaEngine.coordToAddress`, `FormulaEngine.parseCellAddress`).
-/

/-- Fuel-driven recursion for `numberToColumn`: each iteration of the
source's `while (num >= 0)` loop divides `num` by 26, so any fuel above the
current `num` is sufficient and the fuel-out branch is unreachable. -/
def numberToColumnCharsAux : Nat → Nat → List Char
  | 0, _ => []
  | fuel + 1, num =>
    if num < 26 then [Char.ofNat (num + 65)]
    else numberToColumnCharsAux fuel (num / 26 - 1) ++ [Char.ofNat (num % 26 + 65)]

/-- Embeds `FormulaEngine.numberToColumn`: the source's `while (num >= 0)`
loop prepends `fromCharCode(num % 26 + 65)` and continues with
`floor(num / 26) - 1`; the recursion below produces the same characters. -/
def numberToColumnChars (num : Nat) : List Char := numberToColumnCharsAux (num + 1) num

def numberToColumn (num : Nat) : String := String.mk (numberToColumnChars num)

/-- Fuel-driven recursion for `natToDigits`; fuel above `n` is sufficient. -/
def natToDigitsAux : Nat → Nat → List Char
  | 0, _ => []
  | fuel + 1, n =>
    if n < 10 then [Char.ofNat (n + 48)]
    else natToDigitsAux fuel (n / 10) ++ [Char.ofNat (n % 10 + 48)]

/-- Decimal digits of a natural number, as JavaScript template-string
interpolation prints an integer. -/
def natToDigits (n : Nat) : List Char := natToDigitsAux (n + 1) n

/-- Embeds `FormulaEngine.coordToAddress`: column letters followed by the
1-based row number. -/
def coordToAddress (row col : Nat) : String :=
  String.mk (numberToColumnChars col ++ natToDigits (row + 1))

/-- Column-letter accumulator of `parseCellAddress`:
`col = col * 26 + (charCodeAt(i) - 64)`. -/
def colVal (l : List Char) : Nat := l.foldl (fun a c => a * 26 + (chCode c - 64)) 0

/-- The value `parseInt` gives to an all-digit string. -/
def digitsVal (l : List Char) : Nat := l.foldl (fun a c => a * 10 + (chCode c - 48)) 0

/-- Embeds `FormulaEngine.parseCellAddress`: match `^([A-Z]+)([0-9]+)$`
(equivalently, a maximal nonempty uppercase prefix followed by a nonempty
all-digit remainder), then return the 0-based pair
`(colVal - 1, parseInt(row) - 1)`. -/
def parseCellAddress (address : String) : Option (Int × Int) :=
  let cs := address.toList
  let letters := cs.takeWhile isUpperCh
  let digits := cs.dropWhile isUpperCh
  if letters.isEmpty || digits.isEmpty || !digits.all isDigitCh then none
  else some ((colVal letters : Int) - 1, (digitsVal digits : Int) - 1)

/-!
The expression evaluator.  The engine delegates evaluation to the external
`hot-formula-parser` package, which is not part of the repository; the
definitions from here to `hotParserModel` are therefore modelled from the
specification rather than transcribed from source.
-/

/-- Modelled from the spec: cell records hold a computed `value` and an
optional `formula` text (stored without the leading marker). -/
structure CellData where
  value : Value
  formula : Option String
  deriving DecidableEq

/-- A sheet is the JS object mapping cell addresses to records. -/
abbrev SheetData := List (String × CellData)

/-- Embeds `FormulaEngine.getCellValue`: `cell ? cell.value : null`. -/
def getCellValueS (sheet : SheetData) (addr : String) : Value :=
  match objGet addr sheet with
  | some cd => cd.value
  | none => Value.null

/-- Modelled from the spec: arithmetic binary operators. -/
inductive BinOp where
  | add | sub | mul | div
  deriving DecidableEq

/-- Modelled from the spec: formula expressions — literals, single-cell
references, ranges, arithmetic, and function calls from the closed list. -/
inductive Expr where
  | num (q : Int)
  | ref (a : String)
  | rangeRef (a b : String)
  | bin (op : BinOp) (e1 e2 : Expr)
  | call (f : String) (args : List Expr)

/-- Modelled from the spec: tokens of the formula grammar. -/
inductive Tok where
  | num (n : Nat)
  | word (s : String)
  | lpar | rpar | comma | colonT | plus | minus | star | slash
  deriving DecidableEq

/-- Modelled from the spec: tokenizer for the formula grammar.  Fuel is the
input length; every step consumes at least one character. -/
def specTokenize : Nat → List Char → Option (List Tok)
  | _, [] => some []
  | 0, _ :: _ => none
  | fuel + 1, c :: rest =>
    if isSpaceCh c then specTokenize fuel rest
    else if isDigitCh c then
      let d := (c :: rest).takeWhile isDigitCh
      match specTokenize fuel ((c :: rest).drop d.length) with
      | some ts => some (Tok.num (digitsVal d) :: ts)
      | none => none
    else if isLetterCh c then
      let w := (c :: rest).takeWhile (fun x => isLetterCh x || isDigitCh x || x = '_')
      match specTokenize fuel ((c :: rest).drop w.length) with
      | some ts => some (Tok.word (String.mk w) :: ts)
      | none => none
    else
      let sym : Option Tok :=
        if c = '(' then some .lpar
        else if c = ')' then some .rpar
        else if c = ',' then some .comma
        else if c = ':' then some .colonT
        else if c = '+' then some .plus
        else if c = '-' then some .minus
        else if c = '*' then some .star
        else if c = '/' then some .slash
        else none
      match sym with
      | some t =>
        match specTokenize fuel rest with
        | some ts => some (t :: ts)
        | none => none
      | none => none

mutual

/-- Modelled from the spec: atoms — numbers, references, ranges, calls and
parenthesised expressions. -/
def parseAtomF : Nat → List Tok → Option (Expr × List Tok)
  | 0, _ => none
  | fuel + 1, ts =>
    match ts with
    | .num n :: rest => some (.num (n : Int), rest)
    | .word w :: .lpar :: rest =>
      (match parseArgsF fuel rest with
       | some (args, rest') => some (.call w args, rest')
       | none => none)
    | .word w :: .colonT :: .word w2 :: rest => some (.rangeRef w w2, rest)
    | .word w :: rest => some (.ref w, rest)
    | .lpar :: rest =>
      (match parseAddF fuel rest with
       | some (e, .rpar :: rest') => some (e, rest')
       | _ => none)
    | _ => none

/-- Modelled from the spec: comma-separated argument list up to the closing
parenthesis. -/
def parseArgsF : Nat → List Tok → Option (List Expr × List Tok)
  | 0, _ => none
  | fuel + 1, ts =>
    match ts with
    | .rpar :: rest => some ([], rest)
    | _ =>
      match parseAddF fuel ts with
      | some (e, .comma :: rest) =>
        (match parseArgsF fuel rest with
         | some (es, rest') => some (e :: es, rest')
         | none => none)
      | some (e, .rpar :: rest) => some ([e], rest)
      | _ => none

/-- Modelled from the spec: multiplicative level. -/
def parseMulF : Nat → List Tok → Option (Expr × List Tok)
  | 0, _ => none
  | fuel + 1, ts =>
    match parseAtomF fuel ts with
    | some (e, rest) => parseMulLoopF fuel e rest
    | none => none

/-- Modelled from the spec: left-associated chain of `*` and `/`. -/
def parseMulLoopF : Nat → Expr → List Tok → Option (Expr × List Tok)
  | 0, _, _ => none
  | fuel + 1, e, ts =>
    match ts with
    | .star :: rest =>
      (match parseAtomF fuel rest with
       | some (e2, rest') => parseMulLoopF fuel (.bin .mul e e2) rest'
       | none => none)
    | .slash :: rest =>
      (match parseAtomF fuel rest with
       | some (e2, rest') => parseMulLoopF fuel (.bin .div e e2) rest'
       | none => none)
    | _ => some (e, ts)

/-- Modelled from the spec: additive level. -/
def parseAddF : Nat → List Tok → Option (Expr × List Tok)
  | 0, _ => none
  | fuel + 1, ts =>
    match parseMulF fuel ts with
    | some (e, rest) => parseAddLoopF fuel e rest
    | none => none

/-- Modelled from the spec: left-associated chain of `+` and `-`. -/
def parseAddLoopF : Nat → Expr → List Tok → Option (Expr × List Tok)
  | 0, _, _ => none
  | fuel + 1, e, ts =>
    match ts with
    | .plus :: rest =>
      (match parseMulF fuel rest with
       | some (e2, rest') => parseAddLoopF fuel (.bin .add e e2) rest'
       | none => none)
    | .minus :: rest =>
      (match parseMulF fuel rest with
       | some (e2, rest') => parseAddLoopF fuel (.bin .sub e e2) rest'
       | none => none)
    | _ => some (e, ts)

end

/-- Modelled from the spec: parse a full formula body.  The fuel bound
`3 * length + 3` dominates the recursion depth: the chain
additive → multiplicative → atom is three levels, and every further level
first consumes a token. -/
def specParseFormula (s : String) : Option Expr :=
  match specTokenize s.toList.length s.toList with
  | none => none
  | some ts =>
    match parseAddF (3 * ts.length + 3) ts with
    | some (e, []) => some e
    | _ => none

/-- Modelled from the spec: numeric coercion of a scalar operand; a
type-incompatible operand yields `VALUE`. -/
def toNumber : Value → Except ErrKind Int
  | .num q => .ok q
  | .null => .ok 0
  | .boolean b => .ok (if b then 1 else 0)
  | .str s =>
    let cs := s.toList
    if !cs.isEmpty && cs.all isDigitCh then .ok ((digitsVal cs : Nat) : Int)
    else .error .valueE

/-- Modelled from the spec: arithmetic on scalars; division by zero yields
`DIV0`. -/
def applyBin (op : BinOp) (v1 v2 : Value) : Except ErrKind Value :=
  match toNumber v1 with
  | .error k => .error k
  | .ok q1 =>
    match toNumber v2 with
    | .error k => .error k
    | .ok q2 =>
      match op with
      | .add => .ok (.num (q1 + q2))
      | .sub => .ok (.num (q1 - q2))
      | .mul => .ok (.num (q1 * q2))
      | .div => if q2 = 0 then .error .div0 else .ok (.num (q1 / q2))
      -- division by a nonzero divisor is never exercised by the verified
      -- claims; only the zero test matters here

/-- Integer interval `lo..hi` inclusive, as the source's `for` loops iterate
range coordinates. -/
def intRangeList (lo hi : Int) : List Int :=
  (List.range (hi + 1 - lo).toNat).map (fun i => lo + (i : Int))

/-- Canonical address of a reference token, as the parser callback resolves
references through row/column coordinates and `coordToAddress`. -/
def canonAddr (a : String) : String :=
  match parseCellAddress (String.mk (jsToUpper a.toList)) with
  | some (c, r) => if 0 ≤ c ∧ 0 ≤ r then coordToAddress r.toNat c.toNat else a
  | none => a

/-- Row-major cell coordinates of a range, as `callRangeValue` iterates. -/
def rangeCoords (a b : String) : Option (List (Int × Int)) :=
  match parseCellAddress a, parseCellAddress b with
  | some (c1, r1), some (c2, r2) =>
    some ((intRangeList r1 r2).flatMap (fun r => (intRangeList c1 c2).map (fun c => (r, c))))
  | _, _ => none

/-- Value of a coordinate pair under an address environment. -/
def coordValue (env : String → Value) (rc : Int × Int) : Value :=
  if 0 ≤ rc.1 ∧ 0 ≤ rc.2 then env (coordToAddress rc.1.toNat rc.2.toNat) else Value.null

/-- Modelled from the spec: read every cell of a range, propagating a stored
error sentinel found in any of them. -/
def rangeValues (env : String → Value) : List (Int × Int) → Except ErrKind (List Value)
  | [] => .ok []
  | rc :: rest =>
    let v := coordValue env rc
    match valueToErr v with
    | some k => .error k
    | none =>
      match rangeValues env rest with
      | .error k => .error k
      | .ok vs => .ok (v :: vs)

/-- Modelled from the spec: numeric sum of a list of scalars, ignoring
non-numeric entries as `SUM` does. -/
def sumNums (vs : List Value) : Int :=
  vs.foldl (fun acc v => match v with | .num q => acc + q | _ => acc) 0

/-- Modelled from the spec: scalar application of a function from the closed
list to already-evaluated arguments; an unresolvable name yields `NAME`.
Only the functions exercised by the verified claims are given bodies. -/
def applyFn (f : String) (vs : List Value) : Except ErrKind Value :=
  if f = "SUM" then .ok (.num (sumNums vs))
  else .error .nameE

mutual

/-- Modelled from the spec (§4.4): evaluate a formula expression against a
reference-resolution environment.  A stored error sentinel used as an
operand propagates; `IFERROR` alone absorbs errors from its first
argument. -/
def evalExpr (env : String → Value) : Expr → Except ErrKind Value
  | .num q => .ok (.num q)
  | .ref a =>
    let v := env (canonAddr a)
    (match valueToErr v with
     | some k => .error k
     | none => .ok v)
  | .rangeRef _ _ => .error .valueE
  | .bin op e1 e2 =>
    (match evalExpr env e1 with
     | .error k => .error k
     | .ok v1 =>
       match evalExpr env e2 with
       | .error k => .error k
       | .ok v2 => applyBin op v1 v2)
  | .call f args =>
    if f = "IFERROR" then evalIferror env args
    else
      match evalArgs env args with
      | .error k => .error k
      | .ok vs => applyFn f vs

/-- Modelled from the spec: `IFERROR` evaluates its first argument and, on
an error, evaluates and returns its second argument instead. -/
def evalIferror (env : String → Value) : List Expr → Except ErrKind Value
  | [e1, e2] =>
    (match evalExpr env e1 with
     | .ok v => .ok v
     | .error _ => evalExpr env e2)
  | _ => .error .valueE

/-- Modelled from the spec: evaluate arguments left to right, flattening
ranges to their cell values and propagating the first error. -/
def evalArgs (env : String → Value) : List Expr → Except ErrKind (List Value)
  | [] => .ok []
  | .rangeRef a b :: es =>
    (match rangeCoords a b with
     | none => .error .ref
     | some cells =>
       match rangeValues env cells with
       | .error k => .error k
       | .ok vs =>
         match evalArgs env es with
         | .error k => .error k
         | .ok rest => .ok (vs ++ rest))
  | e :: es =>
    match evalExpr env e with
    | .error k => .error k
    | .ok v =>
      match evalArgs env es with
      | .error k => .error k
      | .ok rest => .ok (v :: rest)

end

/-- Outcome of one `parser.parse` call as `evaluateFormula` observes it:
either the call threw, or it returned `{error, result}`. -/
inductive ParseOutcome where
  | thrown
  | parsed (error : Option String) (result : Value)

/-- Modelled from the spec: the external parser applied to a formula against
the current sheet snapshot.  It never throws; a syntax error surfaces as the
error string `"#ERROR!"`, an evaluation error as its sentinel string. -/
def hotParserModel (sheet : SheetData) (formula : String) (_currentCell : String) : ParseOutcome :=
  match specParseFormula formula with
  | none => .parsed (some "#ERROR!") .null
  | some e =>
    match evalExpr (getCellValueS sheet) e with
    | .ok v => .parsed none v
    | .error k => .parsed (some (errString k)) .null

/-!
The `FormulaEngine` state and operations (`src/unnamed/part_019`).
-/

/-- The engine's mutable fields: `sheetData`, `calculationOrder` and the
`dependencies` map (reference → set of dependent cells, in insertion
order). -/
structure FormulaEngine where
  sheetData : SheetData
  calculationOrder : List String
  dependencies : List (String × List String)
  deriving DecidableEq

/-- One `dependencies.get(ref).add(addr)` step of `buildDependencyGraph`,
creating the entry when absent; `Set.add` keeps order and deduplicates. -/
def addEdge (deps : List (String × List String)) (r c : String) : List (String × List String) :=
  match objGet r deps with
  | some l => if c ∈ l then deps else objSet r (l ++ [c]) deps
  | none => objSet r [c] deps

def addEdges (deps : List (String × List String)) (c : String) (refs : List String) :
    List (String × List String) :=
  refs.foldl (fun d r => addEdge d r c) deps

/-- First phase of `FormulaEngine.buildDependencyGraph`: the dependency map
built from every formula cell's extracted references. -/
def buildDepsMap (sheet : SheetData) : List (String × List String) :=
  sheet.foldl
    (fun deps entry =>
      match entry.2.formula with
      | some f => addEdges deps entry.1 (extractCellReferences f)
      | none => deps)
    []

/-- Membership in the dependency map: an edge `r → c` recorded for a
reference `r` and a dependent cell `c`. -/
def edgeMem (deps : List (String × List String)) (r c : String) : Bool :=
  match objGet r deps with
  | some l => c ∈ l
  | none => false

/-- The three mutable sets of the source's DFS: `visited`, `temp` and the
accumulated `calculationOrder`. -/
structure DfsState where
  visited : List String
  temp : List String
  order : List String
  deriving DecidableEq

/-- Embeds the source's recursive `visit`.  A cell in `temp` signals a
cycle and returns `false` (leaving `temp` as is, exactly as the source's
early `return false` skips `temp.delete`).  The reference loop is a fold
that propagates the first failure unchanged, which is the same final result
as the source's early `return false`.  Fuel bounds the recursion depth;
each recursing frame first adds a cell not yet in `temp` to `temp`, so the
depth never exceeds the number of distinct addresses and the fuel chosen in
`topoOrder` makes the fuel-out branch unreachable. -/
def dfsVisit (sheet : SheetData) : Nat → DfsState → String → Bool × DfsState
  | 0, st, _ => (false, st)
  | fuel + 1, st, cell =>
    if cell ∈ st.temp then (false, st)
    else if cell ∈ st.visited then (true, st)
    else
      let st1 : DfsState := { st with temp := st.temp ++ [cell] }
      let refs : List String :=
        match objGet cell sheet with
        | some cd =>
          (match cd.formula with
           | some f => extractCellReferences f
           | none => [])
        | none => []
      match refs.foldl
          (fun acc r =>
            match acc with
            | (false, stf) => (false, stf)
            | (true, stt) => dfsVisit sheet fuel stt r)
          (true, st1) with
      | (true, st2) =>
        (true,
         { visited := st2.visited ++ [cell],
           temp := st2.temp.erase cell,
           order := st2.order ++ [cell] })
      | (false, st2) => (false, st2)

/-- Every address the DFS can ever visit: the sheet's keys together with
every extracted reference. -/
def allNodes (sheet : SheetData) : List String :=
  objKeys sheet ++
    sheet.foldl
      (fun acc entry =>
        match entry.2.formula with
        | some f => acc ++ extractCellReferences f
        | none => acc)
      []

/-- Second phase of `FormulaEngine.buildDependencyGraph`: the outer loop over
`Object.keys(this.sheetData)` running `visit` on unvisited cells; failed
visits only produce a console warning. -/
def topoOrder (sheet : SheetData) : List String :=
  ((objKeys sheet).foldl
    (fun st cell =>
      if cell ∈ st.visited then st
      else (dfsVisit sheet ((allNodes sheet).length + 2) st cell).2)
    ⟨[], [], []⟩).order

/-- Embeds `FormulaEngine.buildDependencyGraph`: dependency map and
calculation order, both rebuilt from scratch. -/
def buildDependencyGraph (sheet : SheetData) : List (String × List String) × List String :=
  (buildDepsMap sheet, topoOrder sheet)

/-- One iteration of the `recalculate` loop at a given address: cells without
a record or without a formula are skipped; a thrown evaluation stores
`"#ERROR!"`; a parser error string goes through `formatError`; otherwise the
parsed result is stored.  The evaluation function is a parameter so that the
engine-independent shape of the loop is visible. -/
def recalcStep (evalP : SheetData → String → String → ParseOutcome)
    (sheet : SheetData) (addr : String) : SheetData :=
  match objGet addr sheet with
  | some cd =>
    (match cd.formula with
     | some f =>
       (match evalP sheet f addr with
        | .thrown => objSet addr ⟨.str "#ERROR!", cd.formula⟩ sheet
        | .parsed (some e) _ => objSet addr ⟨.str (formatError e), cd.formula⟩ sheet
        | .parsed none v => objSet addr ⟨v, cd.formula⟩ sheet)
     | none => sheet)
  | none => sheet

/-- The `for (const cellAddress of this.calculationOrder)` loop of
`recalculate`. -/
def recalcList (evalP : SheetData → String → String → ParseOutcome)
    (sheet : SheetData) (order : List String) : SheetData :=
  order.foldl (recalcStep evalP) sheet

/-- Embeds `FormulaEngine.recalculate` with the modelled external parser. -/
def FormulaEngine.recalculate (E : FormulaEngine) : FormulaEngine :=
  { E with sheetData := recalcList hotParserModel E.sheetData E.calculationOrder }

/-- Embeds the constructor: store the initial data and build the dependency
graph (the constructor does not recalculate). -/
def FormulaEngine.new (initialData : SheetData) : FormulaEngine :=
  let g := buildDependencyGraph initialData
  ⟨initialData, g.2, g.1⟩

/-- The `buildDependencyGraph(); recalculate();` tail shared by the mutating
operations. -/
def rebuildAndRecalc (sheet : SheetData) : FormulaEngine :=
  let g := buildDependencyGraph sheet
  ⟨recalcList hotParserModel sheet g.2, g.2, g.1⟩

/-- Embeds `FormulaEngine.setCellValue`: store `{value, formula}` and rebuild
plus recalculate only under `if (formula)` — a missing or empty formula
argument is falsy and skips the rebuild. -/
def FormulaEngine.setCellValue (E : FormulaEngine) (addr : String) (v : Value)
    (formula : Option String) : FormulaEngine :=
  let sd := objSet addr ⟨v, formula⟩ E.sheetData
  match formula with
  | some f => if f = "" then { E with sheetData := sd } else rebuildAndRecalc sd
  | none => { E with sheetData := sd }

/-- Embeds `FormulaEngine.setCellFormula`: strip one leading `=` if present,
store `{value: null, formula}`, rebuild and recalculate. -/
def FormulaEngine.setCellFormula (E : FormulaEngine) (addr formula : String) : FormulaEngine :=
  let clean : String :=
    match formula.toList with
    | '=' :: rest => String.mk rest
    | _ => formula
  rebuildAndRecalc (objSet addr ⟨.null, some clean⟩ E.sheetData)

/-- Embeds `FormulaEngine.getCellValue`. -/
def FormulaEngine.getCellValue (E : FormulaEngine) (addr : String) : Value :=
  getCellValueS E.sheetData addr

/-- Embeds `FormulaEngine.getCellFormula`: `this.sheetData[addr]?.formula`
(`undefined` both for a missing record and a formula-less record). -/
def FormulaEngine.getCellFormula (E : FormulaEngine) (addr : String) : Option String :=
  (objGet addr E.sheetData).bind (fun cd => cd.formula)

/-- Embeds `FormulaEngine.clearCell`: delete the record, rebuild and
recalculate. -/
def FormulaEngine.clearCell (E : FormulaEngine) (addr : String) : FormulaEngine :=
  rebuildAndRecalc (objDelete addr E.sheetData)

/-!
The static diagnostics (`analyzeFormula` and helpers, in the AI formula
debugger module).
-/

/-- One diagnostic of `analyzeFormula` (the optional `position` field of the
source interface is never populated and is omitted). -/
structure AnalyzerError where
  type : String
  message : String
  suggestion : Option String
  deriving DecidableEq

/-- Result record of `analyzeFormula`. -/
structure AnalysisResult where
  isValid : Bool
  errors : List AnalyzerError
  dependencies : List String
  deriving DecidableEq

/-- Embeds `checkParentheses`: counts of `(` and `)`. -/
def checkParentheses (formula : List Char) : Nat × Nat :=
  formula.foldl
    (fun n c =>
      if c = '(' then (n.1 + 1, n.2)
      else if c = ')' then (n.1, n.2 + 1)
      else n)
    (0, 0)

/-- Match attempt for `\b([A-Z]+[0-9]+)\b` at the current position (the
before-boundary is checked by the scanner): maximal `[A-Z]+` then maximal
`[0-9]+`, then a non-word character or the end.  No shorter split can
succeed because the classes are disjoint, so backtracking never helps. -/
def cellMatchAt (cs : List Char) : Option Nat :=
  let l := cs.takeWhile isUpperCh
  if l.isEmpty then none
  else
    let rest := cs.drop l.length
    let d := rest.takeWhile isDigitCh
    if d.isEmpty then none
    else
      match rest.drop d.length with
      | [] => some (l.length + d.length)
      | c :: _ => if isWordCh c then none else some (l.length + d.length)

/-- The `exec` loop of the cell-reference pattern; the boolean carries
whether a word boundary holds before the current position. -/
def cellScan : Nat → Bool → List Char → List (List Char)
  | 0, _, _ => []
  | _ + 1, _, [] => []
  | fuel + 1, bnd, c :: rest =>
    match (if bnd then cellMatchAt (c :: rest) else none) with
    | some n => (c :: rest).take n :: cellScan fuel false ((c :: rest).drop n)
    | none => cellScan fuel (!isWordCh c) rest

/-- The dependency extraction of `analyzeFormula`
(`/\b([A-Z]+[0-9]+)\b/g`). -/
def analyzerCellTokens (body : List Char) : List String :=
  (cellScan body.length true body).map String.mk

/-- Match attempt for `\b([A-Z]+)\s*\(` at the current position: captured
name and full match length (through the `(`). -/
def fnMatchAt (cs : List Char) : Option (String × Nat) :=
  let l := cs.takeWhile isUpperCh
  if l.isEmpty then none
  else
    let rest := cs.drop l.length
    let w := rest.takeWhile isSpaceCh
    match rest.drop w.length with
    | '(' :: _ => some (String.mk l, l.length + w.length + 1)
    | _ => none

/-- The `exec` loop of the function-call pattern; after a match the scan
resumes right after the `(`, before which a boundary trivially holds. -/
def fnScan : Nat → Bool → List Char → List String
  | 0, _, _ => []
  | _ + 1, _, [] => []
  | fuel + 1, bnd, c :: rest =>
    match (if bnd then fnMatchAt (c :: rest) else none) with
    | some (name, n) => name :: fnScan fuel true ((c :: rest).drop n)
    | none => fnScan fuel (!isWordCh c) rest

/-- The function-name extraction of `analyzeFormula`
(`/\b([A-Z]+)\s*\(/g`). -/
def analyzerFunctionTokens (body : List Char) : List String :=
  fnScan body.length true body

/-- Embeds `isValidFunction`'s closed list, in source order. -/
def validFunctions : List String :=
  ["SUM", "AVERAGE", "COUNT", "MAX", "MIN", "IF", "VLOOKUP", "HLOOKUP",
   "INDEX", "MATCH", "SUMIF", "COUNTIF", "AVERAGEIF", "ROUND", "ROUNDUP",
   "ROUNDDOWN", "ABS", "SQRT", "POWER", "MOD", "CONCATENATE", "LEFT",
   "RIGHT", "MID", "LEN", "TRIM", "UPPER", "LOWER", "PROPER", "DATE",
   "TODAY", "NOW", "YEAR", "MONTH", "DAY", "HOUR", "MINUTE", "SECOND",
   "PMT", "FV", "PV", "RATE", "NPER", "IRR", "NPV", "AND", "OR", "NOT",
   "IFERROR", "ISBLANK", "ISERROR", "ISNUMBER", "ISTEXT"]

/-- Embeds `isValidFunction`. -/
def isValidFunction (name : String) : Bool :=
  validFunctions.contains (String.mk (jsToUpper name.toList))

/-- Embeds `suggestFunction`: a fixed five-entry lookup table with fallback
`"SUM"`. -/
def suggestFunction (name : String) : String :=
  let suggestions : List (String × String) :=
    [("AVG", "AVERAGE"), ("CNT", "COUNT"), ("CONCAT", "CONCATENATE"),
     ("VLOOK", "VLOOKUP"), ("HLOOK", "HLOOKUP")]
  match objGet (String.mk (jsToUpper name.toList)) suggestions with
  | some s => s
  | none => "SUM"

/-- Embeds `analyzeFormula`: no diagnostics for marker-less input; otherwise
parenthesis balance, unknown-function errors in scan order, and the shallow
self-reference check, over the extracted dependencies. -/
def analyzeFormula (formula : String) (cellRef : String) : AnalysisResult :=
  match formula.toList with
  | '=' :: body =>
    let counts := checkParentheses body
    let parenErrs : List AnalyzerError :=
      if counts.1 = counts.2 then []
      else
        [⟨"syntax",
          "Unbalanced parentheses: " ++ Nat.repr counts.1 ++ " opening, " ++
            Nat.repr counts.2 ++ " closing",
          some "Add or remove parentheses to balance the formula"⟩]
    let deps := analyzerCellTokens body
    let fns := analyzerFunctionTokens body
    let fnErrs : List AnalyzerError :=
      (fns.filter (fun f => !isValidFunction f)).map
        (fun f =>
          ⟨"reference", "Unknown function: " ++ f,
           some ("Did you mean " ++ suggestFunction f ++ "?")⟩)
    let circErrs : List AnalyzerError :=
      if deps.contains cellRef then
        [⟨"circular", "Circular reference detected: " ++ cellRef ++ " references itself",
          some "Remove the self-reference or restructure the formula"⟩]
      else []
    let errs := parenErrs ++ fnErrs ++ circErrs
    ⟨errs.isEmpty, errs, deps⟩
  | _ => ⟨true, [], []⟩

/-!
Specification-side definitions, written from the spec's words for
comparison with the source behaviour.
-/

/-- Inner loop of the Levenshtein row update. -/
def levGo (c : Char) : List Char → List Nat → Nat → List Nat
  | [], _, _ => []
  | _ :: _, [], _ => []
  | b :: bs, pDiag :: prevRest, left =>
    let pUp := prevRest.headD 0
    let cost : Nat := if b = c then 0 else 1
    let cur := min (min (left + 1) (pUp + 1)) (pDiag + cost)
    cur :: levGo c bs prevRest cur

/-- One row update of the standard edit-distance dynamic program. -/
def levStep (bs : List Char) (prev : List Nat) (c : Char) : List Nat :=
  let h := prev.headD 0 + 1
  h :: levGo c bs prev h

/-- Levenshtein edit distance between two strings. -/
def editDistance (a b : String) : Nat :=
  let bs := b.toList
  (a.toList.foldl (levStep bs) (List.range (bs.length + 1))).getLastD 0

/-- Strict alphabetical (code-point) order on strings. -/
def charsLt : List Char → List Char → Bool
  | [], [] => false
  | [], _ :: _ => true
  | _ :: _, [] => false
  | a :: as, b :: bs =>
    if chCode a < chCode b then true
    else if chCode a = chCode b then charsLt as bs else false

/-- Written from the spec: the suggestion for an unknown function name is
the member of the closed function list at minimum edit distance, ties
broken alphabetically. -/
def specSuggestFunction (name : String) : String :=
  match validFunctions with
  | [] => ""
  | f :: fs =>
    fs.foldl
      (fun best cand =>
        let db := editDistance name best
        let dc := editDistance name cand
        if dc < db then cand
        else if dc == db && charsLt cand.toList best.toList then cand
        else best)
      f

/-- Written from the spec: the address grammar `^[A-Z]+[0-9]+$`. -/
def addrGrammar (s : String) : Prop :=
  ∃ l r, s.toList = l ++ r ∧ l ≠ [] ∧ r ≠ [] ∧ l.all isUpperCh ∧ r.all isDigitCh

/-- Sheet-level view of `getCellFormula`. -/
def getFormulaS (sheet : SheetData) (addr : String) : Option String :=
  (objGet addr sheet).bind (fun cd => cd.formula)

/-- An evaluation outcome the `recalculate` loop cannot store directly: a
thrown evaluation, or a parser error string outside the seven standard
sentinels. -/
def hardFailure (o : ParseOutcome) : Prop :=
  o = .thrown ∨ ∃ e v, o = .parsed (some e) v ∧ stdSentinels.contains e = false

/-- The dependency map mirrors the current formula texts: an edge `r → c`
exists exactly when cell `c` currently holds a formula whose extracted
references contain `r`. -/
def mirrors (E : FormulaEngine) : Prop :=
  ∀ r c, edgeMem E.dependencies r c = true ↔
    ∃ f, getFormulaS E.sheetData c = some f ∧ r ∈ extractCellReferences f

/-- Store of the cycle-containment scenario: `A1` and `B1` reference each
other, the sibling `C1` holds the formula `5`. -/
def c1Store : SheetData :=
  [("A1", ⟨Value.null, some "B1"⟩), ("B1", ⟨Value.null, some "A1"⟩),
   ("C1", ⟨Value.null, some "5"⟩)]

/-- Store of the error-propagation scenario. -/
def c2Store : SheetData :=
  [("A1", ⟨Value.null, some "1/0"⟩), ("B1", ⟨Value.null, some "A1+1"⟩),
   ("C1", ⟨Value.null, some "IFERROR(A1,0)"⟩)]

/-- Store of the idempotence scenario: `B1` sums the range `A1:A3`, whose
interior cell `A2` is a formula cell appearing after `B1` in the
calculation order because range interiors are never extracted as
dependencies. -/
def c3Store : SheetData :=
  [("B1", ⟨Value.null, some "SUM(A1:A3)"⟩), ("A2", ⟨Value.num 100, some "7"⟩),
   ("A1", ⟨Value.num 1, none⟩), ("A3", ⟨Value.num 1, none⟩)]

/-!
Theorems.
-/

theorem objGet_objSet_self {α : Type} (k : String) (v : α) (l : List (String × α)) :
    objGet k (objSet k v l) = some v := by
  induction l with
  | nil => simp [objGet, objSet]
  | cons h t ih =>
    obtain ⟨k', v'⟩ := h
    by_cases hk : k' = k <;> simp [objGet, objSet, hk, ih]

theorem objGet_objSet_ne {α : Type} (k k₀ : String) (v : α) (l : List (String × α))
    (h : k ≠ k₀) : objGet k₀ (objSet k v l) = objGet k₀ l := by
  induction l with
  | nil => simp [objGet, objSet, h]
  | cons hd t ih =>
    obtain ⟨k', v'⟩ := hd
    by_cases hk : k' = k
    · subst hk
      simp [objGet, objSet, h]
    · simp [objGet, objSet, hk, ih]

/-- Bridge between `Char.ofNat` and `Char.toNat` on the ASCII range. -/
theorem toNat_ofNat_ascii : ∀ n : Nat, n < 128 → (Char.ofNat n).toNat = n := by
  decide

theorem formatError_of_not_std (e : String) (h : ¬ stdSentinels.contains e = true) :
    formatError e = "#ERROR!" := by
  unfold formatError
  rw [if_neg h]

example : extractCellReferences "A1+A1" = ["A1", "A1"] := by decide
example : extractCellReferences "$A$1" = ["$A$1"] := by decide
example : extractCellReferences "Sheet1!A1" = ["SHEET1", "A1"] := by decide
example : extractCellReferences "SUM(A1:A3)" = ["A1", "A3"] := by decide
example : extractCellReferences "1/0" = [] := by decide
example : extractCellReferences "IFERROR(A1,0)" = ["A1"] := by decide

example : parseCellAddress "A1" = some (0, 0) := by decide
example : parseCellAddress "AA10" = some (26, 9) := by decide
example : parseCellAddress "A1B" = none := by decide
example : coordToAddress 9 26 = "AA10" := by decide

/-- Bridge between `Char.ofNat` and `Char.toNat` on the ASCII range. -/
theorem chCode_ofNat_ascii : ∀ n : Nat, n < 128 → chCode (Char.ofNat n) = n := by
  decide

theorem isUpperCh_ofNat_letter : ∀ k : Nat, k < 26 → isUpperCh (Char.ofNat (k + 65)) = true := by
  decide

theorem isDigitCh_ofNat_digit : ∀ k : Nat, k < 10 → isDigitCh (Char.ofNat (k + 48)) = true := by
  decide

theorem digit_not_upper (c : Char) (h : isDigitCh c = true) : isUpperCh c = false := by
  have h' : 48 ≤ c.toNat ∧ c.toNat ≤ 57 := by simpa [isDigitCh, chCode] using h
  simp only [isUpperCh, chCode]
  rw [Bool.and_eq_false_iff]
  left
  simp only [decide_eq_false_iff_not]
  omega

theorem all_takeWhile {α : Type} (p : α → Bool) (l : List α) :
    (l.takeWhile p).all p = true := by
  induction l with
  | nil => rfl
  | cons c t ih =>
    by_cases h : p c = true
    · simp [List.takeWhile_cons, h, ih]
    · simp [List.takeWhile_cons, h]

theorem takeWhile_append_of_all {α : Type} (p : α → Bool) (l r : List α)
    (h : l.all p = true) : (l ++ r).takeWhile p = l ++ r.takeWhile p := by
  induction l with
  | nil => simp
  | cons c t ih =>
    simp only [List.all_cons, Bool.and_eq_true] at h
    simp [List.takeWhile_cons, h.1, ih h.2]

theorem dropWhile_append_of_all {α : Type} (p : α → Bool) (l r : List α)
    (h : l.all p = true) : (l ++ r).dropWhile p = r.dropWhile p := by
  induction l with
  | nil => simp
  | cons c t ih =>
    simp only [List.all_cons, Bool.and_eq_true] at h
    simp [List.dropWhile_cons, h.1, ih h.2]

theorem takeWhile_head_false {α : Type} (p : α → Bool) (c : α) (t : List α)
    (h : p c = false) : (c :: t).takeWhile p = [] := by
  simp [List.takeWhile_cons, h]

theorem dropWhile_head_false {α : Type} (p : α → Bool) (c : α) (t : List α)
    (h : p c = false) : (c :: t).dropWhile p = c :: t := by
  simp [List.dropWhile_cons, h]

theorem colVal_append_last (xs : List Char) (c : Char) :
    colVal (xs ++ [c]) = colVal xs * 26 + (chCode c - 64) := by
  simp [colVal, List.foldl_append]

theorem digitsVal_append_last (xs : List Char) (c : Char) :
    digitsVal (xs ++ [c]) = digitsVal xs * 10 + (chCode c - 48) := by
  simp [digitsVal, List.foldl_append]

theorem colAux_val : ∀ fuel num : Nat, num < fuel →
    colVal (numberToColumnCharsAux fuel num) = num + 1 := by
  intro fuel
  induction fuel with
  | zero => intro num h; omega
  | succ n ih =>
    intro num h
    by_cases h26 : num < 26
    · simp only [numberToColumnCharsAux, if_pos h26]
      have hc := chCode_ofNat_ascii (num + 65) (by omega)
      simp [colVal, hc]
    · have hdl : num / 26 < num := Nat.div_lt_self (by omega) (by omega)
      have hlt : num / 26 - 1 < n := by omega
      simp only [numberToColumnCharsAux, if_neg h26]
      rw [colVal_append_last, ih _ hlt, chCode_ofNat_ascii (num % 26 + 65) (by omega)]
      have hmod := Nat.div_add_mod num 26
      have hm : num % 26 < 26 := Nat.mod_lt _ (by omega)
      omega

theorem colAux_upper : ∀ fuel num : Nat, num < fuel →
    (numberToColumnCharsAux fuel num).all isUpperCh = true := by
  intro fuel
  induction fuel with
  | zero => intro num h; omega
  | succ n ih =>
    intro num h
    by_cases h26 : num < 26
    · simp only [numberToColumnCharsAux, if_pos h26]
      simp [isUpperCh_ofNat_letter num h26]
    · have hdl : num / 26 < num := Nat.div_lt_self (by omega) (by omega)
      have hlt : num / 26 - 1 < n := by omega
      simp only [numberToColumnCharsAux, if_neg h26, List.all_append]
      have hm : num % 26 < 26 := Nat.mod_lt _ (by omega)
      simp [ih _ hlt, isUpperCh_ofNat_letter (num % 26) hm]

theorem colAux_ne_nil : ∀ fuel num : Nat, num < fuel →
    numberToColumnCharsAux fuel num ≠ [] := by
  intro fuel num h
  cases fuel with
  | zero => omega
  | succ n =>
    by_cases h26 : num < 26
    · simp [numberToColumnCharsAux, if_pos h26]
    · simp [numberToColumnCharsAux, if_neg h26]

theorem digAux_val : ∀ fuel n : Nat, n < fuel →
    digitsVal (natToDigitsAux fuel n) = n := by
  intro fuel
  induction fuel with
  | zero => intro n h; omega
  | succ m ih =>
    intro n h
    by_cases h10 : n < 10
    · simp only [natToDigitsAux, if_pos h10]
      have hc := chCode_ofNat_ascii (n + 48) (by omega)
      simp [digitsVal, hc]
    · have hdl : n / 10 < n := Nat.div_lt_self (by omega) (by omega)
      have hlt : n / 10 < m := by omega
      simp only [natToDigitsAux, if_neg h10]
      rw [digitsVal_append_last, ih _ hlt, chCode_ofNat_ascii (n % 10 + 48) (by omega)]
      have hmod := Nat.div_add_mod n 10
      have hm : n % 10 < 10 := Nat.mod_lt _ (by omega)
      omega

theorem digAux_digit : ∀ fuel n : Nat, n < fuel →
    (natToDigitsAux fuel n).all isDigitCh = true := by
  intro fuel
  induction fuel with
  | zero => intro n h; omega
  | succ m ih =>
    intro n h
    by_cases h10 : n < 10
    · simp only [natToDigitsAux, if_pos h10]
      simp [isDigitCh_ofNat_digit n h10]
    · have hdl : n / 10 < n := Nat.div_lt_self (by omega) (by omega)
      have hlt : n / 10 < m := by omega
      simp only [natToDigitsAux, if_neg h10, List.all_append]
      have hm : n % 10 < 10 := Nat.mod_lt _ (by omega)
      simp [ih _ hlt, isDigitCh_ofNat_digit (n % 10) hm]

theorem digAux_ne_nil : ∀ fuel n : Nat, n < fuel → natToDigitsAux fuel n ≠ [] := by
  intro fuel n h
  cases fuel with
  | zero => omega
  | succ m =>
    by_cases h10 : n < 10
    · simp [natToDigitsAux, if_pos h10]
    · simp [natToDigitsAux, if_neg h10]

theorem parseCellAddress_eq_none_iff (s : String) :
    parseCellAddress s = none ↔
      ((s.toList.takeWhile isUpperCh).isEmpty ||
        (s.toList.dropWhile isUpperCh).isEmpty ||
        !(s.toList.dropWhile isUpperCh).all isDigitCh) = true := by
  unfold parseCellAddress
  by_cases h : ((s.toList.takeWhile isUpperCh).isEmpty ||
      (s.toList.dropWhile isUpperCh).isEmpty ||
      !(s.toList.dropWhile isUpperCh).all isDigitCh) = true
  · rw [if_pos h]
    exact iff_of_true rfl h
  · rw [if_neg h]
    exact iff_of_false (by simp) h

theorem toList_mk (l : List Char) : (String.mk l).toList = l := rfl

theorem parseCellAddress_eq_some (s : String)
    (h1 : s.toList.takeWhile isUpperCh ≠ [])
    (h2 : s.toList.dropWhile isUpperCh ≠ [])
    (h3 : (s.toList.dropWhile isUpperCh).all isDigitCh = true) :
    parseCellAddress s =
      some ((colVal (s.toList.takeWhile isUpperCh) : Int) - 1,
            (digitsVal (s.toList.dropWhile isUpperCh) : Int) - 1) := by
  unfold parseCellAddress
  have e1 : (s.toList.takeWhile isUpperCh).isEmpty = false := by
    cases hx : s.toList.takeWhile isUpperCh
    · exact absurd hx h1
    · rfl
  have e2 : (s.toList.dropWhile isUpperCh).isEmpty = false := by
    cases hx : s.toList.dropWhile isUpperCh
    · exact absurd hx h2
    · rfl
  have hcond : ¬ ((s.toList.takeWhile isUpperCh).isEmpty ||
      (s.toList.dropWhile isUpperCh).isEmpty ||
      !(s.toList.dropWhile isUpperCh).all isDigitCh) = true := by
    rw [e1, e2, h3]
    simp
  rw [if_neg hcond]

/-- Claim C8: address parsing and printing are mutually inverse over the
grammar `^[A-Z]+[0-9]+$` with bijective base-26 columns and 1-based rows:
`parseCellAddress` applied to the canonical text of a nonnegative
`(col, row)` pair returns exactly that pair, and it returns `null` exactly
on the strings that do not match the grammar. -/
theorem c8_parse_print_inverse :
    (∀ col row : Nat,
       parseCellAddress (coordToAddress row col) = some ((col : Int), (row : Int))) ∧
    (∀ s : String, parseCellAddress s = none ↔ ¬ addrGrammar s) := by
  constructor
  · intro col row
    have hLu := colAux_upper (col + 1) col (Nat.lt_succ_self col)
    have hLv := colAux_val (col + 1) col (Nat.lt_succ_self col)
    have hDd := digAux_digit (row + 2) (row + 1) (Nat.lt_succ_self (row + 1))
    have hDv := digAux_val (row + 2) (row + 1) (Nat.lt_succ_self (row + 1))
    have hLne := colAux_ne_nil (col + 1) col (Nat.lt_succ_self col)
    have hDne := digAux_ne_nil (row + 2) (row + 1) (Nat.lt_succ_self (row + 1))
    obtain ⟨d, ds, hD⟩ := List.exists_cons_of_ne_nil hDne
    have hd_digit : isDigitCh d = true := by
      rw [hD] at hDd
      simp only [List.all_cons, Bool.and_eq_true] at hDd
      exact hDd.1
    have hd_up : isUpperCh d = false := digit_not_upper d hd_digit
    have htl : (coordToAddress row col).toList =
        numberToColumnCharsAux (col + 1) col ++ natToDigitsAux (row + 2) (row + 1) := rfl
    have htake : (coordToAddress row col).toList.takeWhile isUpperCh =
        numberToColumnCharsAux (col + 1) col := by
      rw [htl, takeWhile_append_of_all _ _ _ hLu, hD, takeWhile_head_false _ _ _ hd_up,
        List.append_nil]
    have hdrop : (coordToAddress row col).toList.dropWhile isUpperCh =
        natToDigitsAux (row + 2) (row + 1) := by
      rw [htl, dropWhile_append_of_all _ _ _ hLu, hD, dropWhile_head_false _ _ _ hd_up]
    rw [parseCellAddress_eq_some _ (by rw [htake]; exact hLne) (by rw [hdrop]; exact hDne)
      (by rw [hdrop]; exact hDd)]
    rw [htake, hdrop]
    have hLv' : colVal (numberToColumnCharsAux (col + 1) col) = col + 1 := hLv
    have hDv' : digitsVal (natToDigitsAux (row + 2) (row + 1)) = row + 1 := hDv
    rw [hLv', hDv']
    simp only [Option.some.injEq, Prod.mk.injEq]
    constructor <;> omega
  · intro s
    rw [parseCellAddress_eq_none_iff]
    constructor
    · intro hcond hgram
      obtain ⟨l, r, heq, hl, hr, hlu, hrd⟩ := hgram
      obtain ⟨d, ds, hdr⟩ := List.exists_cons_of_ne_nil hr
      have hd_digit : isDigitCh d = true := by
        rw [hdr] at hrd
        simp only [List.all_cons, Bool.and_eq_true] at hrd
        exact hrd.1
      have hd_up : isUpperCh d = false := digit_not_upper d hd_digit
      have htake : s.toList.takeWhile isUpperCh = l := by
        rw [heq, takeWhile_append_of_all _ _ _ hlu, hdr, takeWhile_head_false _ _ _ hd_up,
          List.append_nil]
      have hdrop : s.toList.dropWhile isUpperCh = r := by
        rw [heq, dropWhile_append_of_all _ _ _ hlu, hdr, dropWhile_head_false _ _ _ hd_up]
      rw [htake, hdrop] at hcond
      simp [List.isEmpty_iff, hl, hr, hrd] at hcond
    · intro hng
      by_contra hcond
      apply hng
      simp only [Bool.or_eq_true, Bool.not_eq_true', List.isEmpty_iff, not_or,
        Bool.not_eq_false] at hcond
      obtain ⟨⟨hc1, hc2⟩, hc3⟩ := hcond
      exact ⟨s.toList.takeWhile isUpperCh, s.toList.dropWhile isUpperCh,
        Eq.symm (List.takeWhile_append_dropWhile isUpperCh s.toList), hc1, hc2,
        all_takeWhile _ _, hc3⟩

theorem getFormulaS_objSet_keep (s : SheetData) (a : String) (cd cd' : CellData)
    (hg : objGet a s = some cd) (hf : cd'.formula = cd.formula) (c : String) :
    getFormulaS (objSet a cd' s) c = getFormulaS s c := by
  by_cases hac : a = c
  · subst hac
    unfold getFormulaS
    rw [objGet_objSet_self, hg]
    simp [hf]
  · unfold getFormulaS
    rw [objGet_objSet_ne _ _ _ _ hac]

theorem getFormulaS_recalcStep (p : SheetData → String → String → ParseOutcome)
    (s : SheetData) (a c : String) :
    getFormulaS (recalcStep p s a) c = getFormulaS s c := by
  cases hg : objGet a s with
  | none => simp [recalcStep, hg]
  | some cd =>
    cases hf : cd.formula with
    | none => simp [recalcStep, hg, hf]
    | some f =>
      cases hout : p s f a with
      | thrown =>
        simp only [recalcStep, hg, hf, hout]
        exact getFormulaS_objSet_keep s a cd ⟨Value.str "#ERROR!", some f⟩ hg (by rw [hf]) c
      | parsed err v =>
        cases err with
        | none =>
          simp only [recalcStep, hg, hf, hout]
          exact getFormulaS_objSet_keep s a cd ⟨v, some f⟩ hg (by rw [hf]) c
        | some e =>
          simp only [recalcStep, hg, hf, hout]
          exact getFormulaS_objSet_keep s a cd ⟨Value.str (formatError e), some f⟩ hg (by rw [hf]) c

theorem getFormulaS_recalcList (p : SheetData → String → String → ParseOutcome)
    (s : SheetData) (order : List String) (c : String) :
    getFormulaS (recalcList p s order) c = getFormulaS s c := by
  induction order generalizing s with
  | nil => rfl
  | cons o os ih =>
    show getFormulaS (recalcList p (recalcStep p s o) os) c = getFormulaS s c
    rw [ih, getFormulaS_recalcStep]

theorem getCellValueS_recalcStep_ne (p : SheetData → String → String → ParseOutcome)
    (s : SheetData) (a c : String) (h : a ≠ c) :
    getCellValueS (recalcStep p s a) c = getCellValueS s c := by
  cases hg : objGet a s with
  | none => simp [recalcStep, hg]
  | some cd =>
    cases hf : cd.formula with
    | none => simp [recalcStep, hg, hf]
    | some f =>
      cases hout : p s f a with
      | thrown =>
        simp only [recalcStep, hg, hf, hout]
        unfold getCellValueS
        rw [objGet_objSet_ne _ _ _ _ h]
      | parsed err v =>
        cases err with
        | none =>
          simp only [recalcStep, hg, hf, hout]
          unfold getCellValueS
          rw [objGet_objSet_ne _ _ _ _ h]
        | some e =>
          simp only [recalcStep, hg, hf, hout]
          unfold getCellValueS
          rw [objGet_objSet_ne _ _ _ _ h]

theorem getCellValueS_recalcList_not_mem (p : SheetData → String → String → ParseOutcome)
    (s : SheetData) (order : List String) (c : String) (h : c ∉ order) :
    getCellValueS (recalcList p s order) c = getCellValueS s c := by
  induction order generalizing s with
  | nil => rfl
  | cons o os ih =>
    simp only [List.mem_cons, not_or] at h
    show getCellValueS (recalcList p (recalcStep p s o) os) c = getCellValueS s c
    rw [ih _ h.2, getCellValueS_recalcStep_ne _ _ _ _ (fun he => h.1 he.symm)]

theorem recalcList_append (p : SheetData → String → String → ParseOutcome)
    (s : SheetData) (l1 l2 : List String) :
    recalcList p s (l1 ++ l2) = recalcList p (recalcList p s l1) l2 := by
  simp [recalcList, List.foldl_append]

/-- Claim C1 counterexample: in the cycle store `A1="B1"`, `B1="A1"`,
`C1="5"`, after `recalculate()` the cycle cell `A1` holds `null` — it is
not marked with any error sentinel — while the sibling `C1` evaluates
to `5`. -/
theorem c1_counterexample :
    (FormulaEngine.new c1Store).recalculate.getCellValue "A1" = Value.null ∧
    valueToErr ((FormulaEngine.new c1Store).recalculate.getCellValue "A1") = none ∧
    (FormulaEngine.new c1Store).recalculate.getCellValue "C1" = Value.num 5 := by
  decide

/-- Claim C1 (amended): the scheduler excludes the cycle cells and their
transitive dependents from the calculation order instead of marking them:
in the cycle store the order is just `["C1"]`, the cycle cells keep their
previous value (`null`), and the sibling `C1` still evaluates to `5`; in
general any cell outside the calculation order retains its previous value
across `recalculate`. -/
theorem c1_cycle_containment :
    ((FormulaEngine.new c1Store).recalculate.calculationOrder = ["C1"] ∧
     (FormulaEngine.new c1Store).recalculate.getCellValue "A1" = Value.null ∧
     (FormulaEngine.new c1Store).recalculate.getCellValue "B1" = Value.null ∧
     (FormulaEngine.new c1Store).recalculate.getCellValue "C1" = Value.num 5) ∧
    (∀ (evalP : SheetData → String → String → ParseOutcome) (sheet : SheetData)
       (order : List String) (c : String), c ∉ order →
       getCellValueS (recalcList evalP sheet order) c = getCellValueS sheet c) := by
  exact ⟨by decide, fun evalP sheet order c h =>
    getCellValueS_recalcList_not_mem evalP sheet order c h⟩

theorem c1_cycle_containment_witness :
    getCellValueS (recalcList hotParserModel [] ["B2"]) "A9" = getCellValueS [] "A9" :=
  c1_cycle_containment.2 hotParserModel [] ["B2"] "A9" (by decide)

/-- Claim C3 at the failing input: `B1="SUM(A1:A3)"` reads the range
interior `A2`, which the reference extractor never records as a
dependency, so `A2` (a formula cell) is scheduled after `B1`; the first
`recalculate()` leaves `B1 = 102` (computed from the stale `A2 = 100`),
and a second `recalculate()` changes it to `9`. -/
theorem c3_recalculate_not_idempotent :
    (FormulaEngine.new c3Store).recalculate.getCellValue "B1" = Value.num 102 ∧
    (FormulaEngine.new c3Store).recalculate.recalculate.getCellValue "B1" = Value.num 9 := by
  decide

/-- Claim C9: during `recalculate`, a cell whose evaluation throws or whose
parser error string lies outside the seven standard sentinels gets the
value `"#ERROR!"`, and the remaining cells of the order are still
processed. -/
theorem c9_error_isolation
    (evalP : SheetData → String → String → ParseOutcome) (sheet : SheetData)
    (pre post : List String) (c : String) (cd : CellData) (f : String)
    (hnotin : c ∉ post)
    (hcd : objGet c (recalcList evalP sheet pre) = some cd)
    (hf : cd.formula = some f)
    (hbad : hardFailure (evalP (recalcList evalP sheet pre) f c)) :
    getCellValueS (recalcList evalP sheet (pre ++ c :: post)) c = Value.str "#ERROR!" ∧
    recalcList evalP sheet (pre ++ c :: post) =
      recalcList evalP (recalcStep evalP (recalcList evalP sheet pre) c) post := by
  have hsplit : recalcList evalP sheet (pre ++ c :: post) =
      recalcList evalP (recalcStep evalP (recalcList evalP sheet pre) c) post := by
    rw [recalcList_append]
    rfl
  refine ⟨?_, hsplit⟩
  rw [hsplit, getCellValueS_recalcList_not_mem _ _ _ _ hnotin]
  rcases hbad with hthrown | ⟨e, v, hout, hnot⟩
  · simp only [recalcStep, hcd, hf, hthrown]
    unfold getCellValueS
    rw [objGet_objSet_self]
  · have hden : formatError e = "#ERROR!" := by
      unfold formatError
      rw [hnot]
      rfl
    simp only [recalcStep, hcd, hf, hout, hden]
    unfold getCellValueS
    rw [objGet_objSet_self]

theorem c9_error_isolation_witness :
    (getCellValueS (recalcList (fun _ _ _ => ParseOutcome.thrown)
        [("A1", ⟨Value.null, some "x"⟩), ("B1", ⟨Value.null, some "x"⟩)]
        ([] ++ "A1" :: ["B1"])) "A1" = Value.str "#ERROR!" ∧
     recalcList (fun _ _ _ => ParseOutcome.thrown)
        [("A1", ⟨Value.null, some "x"⟩), ("B1", ⟨Value.null, some "x"⟩)]
        ([] ++ "A1" :: ["B1"]) =
       recalcList (fun _ _ _ => ParseOutcome.thrown)
         (recalcStep (fun _ _ _ => ParseOutcome.thrown)
           (recalcList (fun _ _ _ => ParseOutcome.thrown)
             [("A1", ⟨Value.null, some "x"⟩), ("B1", ⟨Value.null, some "x"⟩)] []) "A1")
         ["B1"]) :=
  c9_error_isolation (fun _ _ _ => ParseOutcome.thrown)
    [("A1", ⟨Value.null, some "x"⟩), ("B1", ⟨Value.null, some "x"⟩)]
    [] ["B1"] "A1" ⟨Value.null, some "x"⟩ "x"
    (by decide) (by decide) rfl (Or.inl rfl)

/-- Claim C7: `setCellFormula` followed by `getCellFormula` returns a body
without a leading `=` verbatim; the graph rebuild and recalculation that
`setCellFormula` triggers touch only cell values, never formula texts. -/
theorem c7_formula_round_trip (E : FormulaEngine) (addr body : String)
    (h : body.toList.head? ≠ some '=') :
    (E.setCellFormula addr body).getCellFormula addr = some body := by
  have hclean : (match body.toList with
      | '=' :: rest => String.mk rest
      | _ => body) = body := by
    split
    · next rest heq => exact absurd (by rw [heq]; rfl) h
    · rfl
  show getFormulaS (E.setCellFormula addr body).sheetData addr = some body
  simp only [FormulaEngine.setCellFormula, rebuildAndRecalc, hclean]
  rw [getFormulaS_recalcList]
  unfold getFormulaS
  rw [objGet_objSet_self]
  rfl

theorem c7_formula_round_trip_witness :
    ((FormulaEngine.new []).setCellFormula "D1" "SUM(A1:A3)").getCellFormula "D1" =
      some "SUM(A1:A3)" :=
  c7_formula_round_trip (FormulaEngine.new []) "D1" "SUM(A1:A3)" (by decide)

/-- Claim C10: for input that does not begin with the `=` marker (including
empty input and input with unbalanced parentheses or unknown function
names), `analyzeFormula` returns `{isValid: true, errors: [], dependencies:
[]}`. -/
theorem c10_markerless_no_diagnostics (formula cellRef : String)
    (h : formula.toList.head? ≠ some '=') :
    analyzeFormula formula cellRef = ⟨true, [], []⟩ := by
  unfold analyzeFormula
  split
  · next body heq => exact absurd (by rw [heq]; rfl) h
  · rfl

theorem c10_markerless_no_diagnostics_witness :
    analyzeFormula "SUM((A1" "B1" = ⟨true, [], []⟩ :=
  c10_markerless_no_diagnostics "SUM((A1" "B1" (by decide)

theorem jsToUpperChar_idem (c : Char) : jsToUpperChar (jsToUpperChar c) = jsToUpperChar c := by
  by_cases hl : isLowerCh c = true
  · have hb : 97 ≤ chCode c ∧ chCode c ≤ 122 := by simpa [isLowerCh] using hl
    have hc : chCode (Char.ofNat (chCode c - 32)) = chCode c - 32 :=
      chCode_ofNat_ascii _ (by omega)
    have hnl : isLowerCh (Char.ofNat (chCode c - 32)) = false := by
      simp only [isLowerCh, hc]
      rw [Bool.and_eq_false_iff]
      left
      simp only [decide_eq_false_iff_not]
      omega
    simp [jsToUpperChar, hl, hnl]
  · have hl' : isLowerCh c = false := by
      revert hl
      cases isLowerCh c <;> simp
    simp [jsToUpperChar, hl']

theorem jsToUpper_idem (l : List Char) : jsToUpper (jsToUpper l) = jsToUpper l := by
  induction l with
  | nil => rfl
  | cons c t ih =>
    simp only [jsToUpper, List.map_cons] at ih ⊢
    rw [jsToUpperChar_idem, ih]

/-- Claim C5 counterexample: the extractor does not deduplicate (`A1+A1`
yields `A1` twice), and a cross-sheet reference `Sheet1!A1` is split into
two tokens `SHEET1` and `A1` instead of being recognized as one. -/
theorem c5_counterexample :
    extractCellReferences "A1+A1" = ["A1", "A1"] ∧
    extractCellReferences "Sheet1!A1" = ["SHEET1", "A1"] := by
  decide

/-- Claim C5 (amended): the extractor returns the uppercased text of every
pattern match in order, possibly repeating a reference; every returned
token is uppercase-stable, bare and absolute forms are recognized, and it
is a pure function of the formula text (it takes no store argument). -/
theorem c5_reference_extraction :
    (∀ s : String, ∀ t ∈ extractCellReferences s, String.mk (jsToUpper t.toList) = t) ∧
    extractCellReferences "$A$1" = ["$A$1"] ∧
    extractCellReferences "a1" = ["A1"] ∧
    extractCellReferences "SUM(A1:A3)" = ["A1", "A3"] ∧
    extractCellReferences "A1+A1" = ["A1", "A1"] ∧
    extractCellReferences "Sheet1!A1" = ["SHEET1", "A1"] := by
  refine ⟨?_, by decide, by decide, by decide, by decide, by decide⟩
  intro s t ht
  unfold extractCellReferences at ht
  obtain ⟨u, hu, hmk⟩ := List.mem_map.mp ht
  subst hmk
  rw [toList_mk, jsToUpper_idem]

theorem c5_reference_extraction_witness :
    String.mk (jsToUpper "A1".toList) = "A1" :=
  c5_reference_extraction.1 "a1" "A1" (by decide)

theorem edgeMem_addEdge (d : List (String × List String)) (r c r' c' : String) :
    edgeMem (addEdge d r c) r' c' = true ↔ edgeMem d r' c' = true ∨ (r = r' ∧ c = c') := by
  unfold addEdge
  cases hg : objGet r d with
  | none =>
    by_cases hrr : r = r'
    · subst hrr
      simp [edgeMem, objGet_objSet_self, hg, eq_comm]
    · simp [edgeMem, objGet_objSet_ne r r' _ _ hrr, hrr]
  | some l =>
    dsimp only
    by_cases hcl : c ∈ l
    · rw [if_pos hcl]
      by_cases hrr : r = r'
      · subst hrr
        simp only [edgeMem, hg, decide_eq_true_eq]
        constructor
        · exact Or.inl
        · rintro (h | ⟨-, rfl⟩)
          · exact h
          · exact hcl
      · simp [edgeMem, hrr]
    · rw [if_neg hcl]
      by_cases hrr : r = r'
      · subst hrr
        simp only [edgeMem, objGet_objSet_self, hg, decide_eq_true_eq, List.mem_append,
          List.mem_singleton]
        constructor
        · rintro (h | rfl)
          · exact Or.inl h
          · exact Or.inr ⟨trivial, rfl⟩
        · rintro (h | ⟨-, rfl⟩)
          · exact Or.inl h
          · exact Or.inr rfl
      · simp [edgeMem, objGet_objSet_ne r r' _ _ hrr, hrr]

theorem edgeMem_addEdges (refs : List String) (d : List (String × List String))
    (c r' c' : String) :
    edgeMem (addEdges d c refs) r' c' = true ↔
      edgeMem d r' c' = true ∨ (r' ∈ refs ∧ c' = c) := by
  induction refs generalizing d with
  | nil => simp [addEdges]
  | cons r rs ih =>
    show edgeMem (addEdges (addEdge d r c) c rs) r' c' = true ↔ _
    rw [ih, edgeMem_addEdge]
    simp only [List.mem_cons]
    constructor
    · rintro ((h | ⟨rfl, rfl⟩) | ⟨hm, rfl⟩)
      · exact Or.inl h
      · exact Or.inr ⟨Or.inl rfl, rfl⟩
      · exact Or.inr ⟨Or.inr hm, rfl⟩
    · rintro (h | ⟨(rfl | hm), rfl⟩)
      · exact Or.inl (Or.inl h)
      · exact Or.inl (Or.inr ⟨rfl, rfl⟩)
      · exact Or.inr ⟨hm, rfl⟩

theorem edgeMem_foldl_deps (t : SheetData) (d : List (String × List String)) (r c : String) :
    edgeMem (t.foldl
      (fun deps entry =>
        match entry.2.formula with
        | some f => addEdges deps entry.1 (extractCellReferences f)
        | none => deps) d) r c = true ↔
      edgeMem d r c = true ∨
        ∃ cd f, (c, cd) ∈ t ∧ cd.formula = some f ∧ r ∈ extractCellReferences f := by
  induction t generalizing d with
  | nil => simp
  | cons entry tl ih =>
    obtain ⟨a, cd⟩ := entry
    rw [List.foldl_cons, ih]
    cases hf : cd.formula with
    | none =>
      constructor
      · rintro (h | ⟨cd', f, hm, hf', hr⟩)
        · exact Or.inl h
        · exact Or.inr ⟨cd', f, List.mem_cons_of_mem _ hm, hf', hr⟩
      · rintro (h | ⟨cd', f, hm, hf', hr⟩)
        · exact Or.inl h
        · rcases List.mem_cons.mp hm with heq | hm'
          · rw [Prod.mk.injEq] at heq
            obtain ⟨-, hcd⟩ := heq
            subst hcd
            rw [hf] at hf'
            exact absurd hf' (by simp)
          · exact Or.inr ⟨cd', f, hm', hf', hr⟩
    | some f =>
      rw [edgeMem_addEdges]
      constructor
      · rintro ((h | ⟨hrf, rfl⟩) | ⟨cd', f', hm, hf', hr⟩)
        · exact Or.inl h
        · exact Or.inr ⟨cd, f, List.mem_cons_self _ _, hf, hrf⟩
        · exact Or.inr ⟨cd', f', List.mem_cons_of_mem _ hm, hf', hr⟩
      · rintro (h | ⟨cd', f', hm, hf', hr⟩)
        · exact Or.inl (Or.inl h)
        · rcases List.mem_cons.mp hm with heq | hm'
          · rw [Prod.mk.injEq] at heq
            obtain ⟨hca, hcd⟩ := heq
            subst hcd
            rw [hf] at hf'
            obtain rfl : f = f' := by injection hf'
            exact Or.inl (Or.inr ⟨hr, hca⟩)
          · exact Or.inr ⟨cd', f', hm', hf', hr⟩

theorem edgeMem_buildDepsMap (sheet : SheetData) (r c : String) :
    edgeMem (buildDepsMap sheet) r c = true ↔
      ∃ cd f, (c, cd) ∈ sheet ∧ cd.formula = some f ∧ r ∈ extractCellReferences f := by
  have h := edgeMem_foldl_deps sheet [] r c
  rw [show buildDepsMap sheet = sheet.foldl
      (fun deps entry =>
        match entry.2.formula with
        | some f => addEdges deps entry.1 (extractCellReferences f)
        | none => deps) [] from rfl, h]
  simp [edgeMem, objGet]

theorem mem_of_objGet {α : Type} (k : String) (v : α) (l : List (String × α))
    (h : objGet k l = some v) : (k, v) ∈ l := by
  induction l with
  | nil => simp [objGet] at h
  | cons hd t ih =>
    obtain ⟨k', v'⟩ := hd
    by_cases hk : k' = k
    · subst hk
      simp [objGet] at h
      subst h
      exact List.mem_cons_self _ _
    · simp [objGet, hk] at h
      exact List.mem_cons_of_mem _ (ih h)

theorem objGet_of_mem_nodup {α : Type} (k : String) (v : α) (l : List (String × α))
    (hnd : (objKeys l).Nodup) (hm : (k, v) ∈ l) : objGet k l = some v := by
  induction l with
  | nil => simp at hm
  | cons hd t ih =>
    obtain ⟨k', v'⟩ := hd
    simp only [objKeys, List.map_cons, List.nodup_cons] at hnd
    rcases List.mem_cons.mp hm with heq | hm'
    · rw [Prod.mk.injEq] at heq
      obtain ⟨hk, hv⟩ := heq
      subst hk
      subst hv
      simp [objGet]
    · have hkmem : k ∈ objKeys t := by
        unfold objKeys
        exact List.mem_map.mpr ⟨(k, v), hm', rfl⟩
      by_cases hk : k' = k
      · subst hk
        exact absurd hkmem hnd.1
      · simp only [objGet, if_neg hk]
        exact ih hnd.2 hm'

theorem mem_objKeys_objSet {α : Type} (a k : String) (v : α) (l : List (String × α)) :
    a ∈ objKeys (objSet k v l) ↔ a ∈ objKeys l ∨ a = k := by
  induction l with
  | nil => simp [objSet, objKeys]
  | cons hd t ih =>
    obtain ⟨k', v'⟩ := hd
    unfold objSet
    by_cases hk : k' = k
    · rw [if_pos hk]
      subst hk
      simp only [objKeys, List.map_cons, List.mem_cons]
      tauto
    · rw [if_neg hk]
      simp only [objKeys, List.map_cons, List.mem_cons]
      rw [show (objSet k v t).map Prod.fst = objKeys (objSet k v t) from rfl, ih,
        show t.map Prod.fst = objKeys t from rfl]
      tauto

theorem nodup_keys_objSet {α : Type} (k : String) (v : α) (l : List (String × α))
    (h : (objKeys l).Nodup) : (objKeys (objSet k v l)).Nodup := by
  induction l with
  | nil => simp [objSet, objKeys]
  | cons hd t ih =>
    obtain ⟨k', v'⟩ := hd
    simp only [objKeys, List.map_cons, List.nodup_cons] at h
    unfold objSet
    by_cases hk : k' = k
    · rw [if_pos hk]
      subst hk
      simp only [objKeys, List.map_cons, List.nodup_cons]
      exact ⟨h.1, h.2⟩
    · rw [if_neg hk]
      simp only [objKeys, List.map_cons, List.nodup_cons]
      refine ⟨?_, ih h.2⟩
      intro hmem
      rw [show (objSet k v t).map Prod.fst = objKeys (objSet k v t) from rfl,
        mem_objKeys_objSet] at hmem
      rcases hmem with hmem | rfl
      · exact h.1 hmem
      · exact hk rfl

theorem sublist_keys_objDelete {α : Type} (k : String) (l : List (String × α)) :
    (objKeys (objDelete k l)).Sublist (objKeys l) := by
  induction l with
  | nil => simp [objDelete, objKeys]
  | cons hd t ih =>
    obtain ⟨k', v'⟩ := hd
    by_cases hk : k' = k
    · simp only [objDelete, if_pos hk, objKeys, List.map_cons]
      exact ih.cons _
    · simp only [objDelete, if_neg hk, objKeys, List.map_cons]
      exact ih.cons₂ _

theorem nodup_keys_objDelete {α : Type} (k : String) (l : List (String × α))
    (h : (objKeys l).Nodup) : (objKeys (objDelete k l)).Nodup :=
  h.sublist (sublist_keys_objDelete k l)

theorem mirrors_rebuildAndRecalc (sd : SheetData) (hnd : (objKeys sd).Nodup) :
    mirrors (rebuildAndRecalc sd) := by
  intro r c
  show edgeMem (buildDepsMap sd) r c = true ↔
    ∃ f, getFormulaS (recalcList hotParserModel sd (topoOrder sd)) c = some f ∧
      r ∈ extractCellReferences f
  rw [edgeMem_buildDepsMap]
  constructor
  · rintro ⟨cd, f, hm, hf, hr⟩
    refine ⟨f, ?_, hr⟩
    rw [getFormulaS_recalcList]
    unfold getFormulaS
    rw [objGet_of_mem_nodup c cd sd hnd hm]
    simp [hf]
  · rintro ⟨f, hgf, hr⟩
    rw [getFormulaS_recalcList] at hgf
    unfold getFormulaS at hgf
    cases hg : objGet c sd with
    | none =>
      rw [hg] at hgf
      simp at hgf
    | some cd =>
      rw [hg] at hgf
      simp only [Option.some_bind] at hgf
      exact ⟨cd, f, mem_of_objGet c cd sd hg, hgf, hr⟩

/-- Claim C4 counterexample: after `setCellFormula("A1","B1")` followed by
`setCellValue("A1", 5)` without a formula argument, the only cell holds a
plain literal and no formula, yet the stale edge `B1 → A1` is still in the
dependency map — `setCellValue` without a truthy formula argument performs
no rebuild. -/
theorem c4_counterexample :
    (((FormulaEngine.new []).setCellFormula "A1" "B1").setCellValue "A1"
        (Value.num 5) none).sheetData = [("A1", ⟨Value.num 5, none⟩)] ∧
    edgeMem (((FormulaEngine.new []).setCellFormula "A1" "B1").setCellValue "A1"
        (Value.num 5) none).dependencies "B1" "A1" = true := by
  decide

/-- Claim C4 (amended): the dependency-graph edges exactly mirror the
references extracted from each cell's current formula text after
`setCellFormula`, after `clearCell`, and after `setCellValue` when a
nonempty formula argument is passed — each of these rebuilds the graph
wholesale; `setCellValue` without a formula argument does not rebuild. -/
theorem c4_graph_mirror (E : FormulaEngine) (hnd : (objKeys E.sheetData).Nodup) :
    (∀ a f, mirrors (E.setCellFormula a f)) ∧
    (∀ a, mirrors (E.clearCell a)) ∧
    (∀ a v f, f ≠ "" → mirrors (E.setCellValue a v (some f))) := by
  refine ⟨?_, ?_, ?_⟩
  · intro a f
    unfold FormulaEngine.setCellFormula
    exact mirrors_rebuildAndRecalc _ (nodup_keys_objSet _ _ _ hnd)
  · intro a
    unfold FormulaEngine.clearCell
    exact mirrors_rebuildAndRecalc _ (nodup_keys_objDelete _ _ hnd)
  · intro a v f hf
    unfold FormulaEngine.setCellValue
    dsimp only
    rw [if_neg hf]
    exact mirrors_rebuildAndRecalc _ (nodup_keys_objSet _ _ _ hnd)

theorem c4_graph_mirror_witness :
    edgeMem ((FormulaEngine.new []).setCellFormula "A1" "B1").dependencies "B1" "A1" = true ↔
      ∃ f, getFormulaS ((FormulaEngine.new []).setCellFormula "A1" "B1").sheetData "A1" =
          some f ∧ "B1" ∈ extractCellReferences f :=
  (c4_graph_mirror (FormulaEngine.new []) (by decide)).1 "A1" "B1" "B1" "A1"

/-- Claim C2: with the evaluator modelled from the spec, `A1="1/0"` stores
the `#DIV/0!` sentinel, the dependent `B1="A1+1"` receives the same
sentinel through operand propagation, and `C1="IFERROR(A1,0)"` absorbs the
error and stores `0`; in general an error from an operand propagates
through arithmetic operators and through the argument list of any function
other than `IFERROR`, while `IFERROR` evaluates its second argument
instead. -/
theorem c2_error_propagation :
    ((FormulaEngine.new c2Store).recalculate.getCellValue "A1" = Value.str "#DIV/0!" ∧
     (FormulaEngine.new c2Store).recalculate.getCellValue "B1" = Value.str "#DIV/0!" ∧
     (FormulaEngine.new c2Store).recalculate.getCellValue "C1" = Value.num 0) ∧
    (∀ (env : String → Value) (op : BinOp) (e1 e2 : Expr) (k : ErrKind),
       evalExpr env e1 = .error k → evalExpr env (.bin op e1 e2) = .error k) ∧
    (∀ (env : String → Value) (f : String) (e1 : Expr) (rest : List Expr) (k : ErrKind),
       f ≠ "IFERROR" → (∀ a b, e1 ≠ Expr.rangeRef a b) → evalExpr env e1 = .error k →
       evalExpr env (.call f (e1 :: rest)) = .error k) ∧
    (∀ (env : String → Value) (e1 e2 : Expr) (k : ErrKind),
       evalExpr env e1 = .error k →
       evalExpr env (.call "IFERROR" [e1, e2]) = evalExpr env e2) := by
  refine ⟨by decide, ?_, ?_, ?_⟩
  · intro env op e1 e2 k h
    simp only [evalExpr]
    rw [h]
  · intro env f e1 rest k hf hnr h
    simp only [evalExpr]
    rw [if_neg hf]
    cases e1 with
    | rangeRef a b => exact absurd rfl (hnr a b)
    | num q =>
      simp only [evalArgs]
      rw [h]
    | ref a =>
      simp only [evalArgs]
      rw [h]
    | bin op a b =>
      simp only [evalArgs]
      rw [h]
    | call g args =>
      simp only [evalArgs]
      rw [h]
  · intro env e1 e2 k h
    simp only [evalExpr]
    rw [if_pos trivial]
    simp only [evalIferror]
    rw [h]

theorem c2_error_propagation_witness :
    (evalExpr (fun _ => Value.str "#DIV/0!") (.bin .add (.ref "A1") (.num 1)) =
       .error .div0) ∧
    (evalExpr (fun _ => Value.str "#DIV/0!") (.call "IFERROR" [.ref "A1", .num 0]) =
       evalExpr (fun _ => Value.str "#DIV/0!") (.num 0)) :=
  ⟨c2_error_propagation.2.1 (fun _ => Value.str "#DIV/0!") .add (.ref "A1") (.num 1)
     .div0 rfl,
   c2_error_propagation.2.2.2 (fun _ => Value.str "#DIV/0!") (.ref "A1") (.num 0)
     .div0 rfl⟩

/-- Claim C6 counterexample: the analyzer's suggestion comes from a fixed
lookup table, not from minimum edit distance — on the spec's own example
`=AVG(A1:A5)` the code suggests `AVERAGE`, while the minimum-edit-distance
member of the closed function list for `AVG` is `ABS` (distance 2, against
4 for `AVERAGE`). -/
theorem c6_counterexample :
    analyzeFormula "=AVG(A1:A5)" "B1" =
      ⟨false, [⟨"reference", "Unknown function: AVG", some "Did you mean AVERAGE?"⟩],
       ["A1", "A5"]⟩ ∧
    specSuggestFunction "AVG" = "ABS" ∧
    editDistance "AVG" "ABS" = 2 ∧
    editDistance "AVG" "AVERAGE" = 4 := by
  decide

/-- Claim C6 (amended): for every formula `=…` containing a function-call
token `NAME(` whose name is not in the closed list, the analyzer reports an
unknown-function error whose suggestion comes from the fixed five-entry
table (`AVG→AVERAGE`, `CNT→COUNT`, `CONCAT→CONCATENATE`, `VLOOK→VLOOKUP`,
`HLOOK→HLOOKUP`) with fallback `SUM`; in particular `=AVG(A1:A5)` reports
an unknown-function error suggesting `AVERAGE`. -/
theorem c6_unknown_function_diagnostics :
    (∀ (body : List Char) (formula cellRef name : String),
       formula.toList = '=' :: body →
       name ∈ analyzerFunctionTokens body →
       isValidFunction name = false →
       (⟨"reference", "Unknown function: " ++ name,
         some ("Did you mean " ++ suggestFunction name ++ "?")⟩ : AnalyzerError) ∈
         (analyzeFormula formula cellRef).errors) ∧
    (analyzeFormula "=AVG(A1:A5)" "B1").errors =
      [⟨"reference", "Unknown function: AVG", some "Did you mean AVERAGE?"⟩] := by
  refine ⟨?_, by decide⟩
  intro body formula cellRef name hform hmem hval
  unfold analyzeFormula
  rw [hform]
  dsimp only
  apply List.mem_append_left
  apply List.mem_append_right
  apply List.mem_map.mpr
  refine ⟨name, ?_, rfl⟩
  apply List.mem_filter.mpr
  exact ⟨hmem, by simp [hval]⟩

theorem c6_unknown_function_diagnostics_witness :
    (⟨"reference", "Unknown function: MAXX", some "Did you mean SUM?"⟩ : AnalyzerError) ∈
      (analyzeFormula "=MAXX(A1)" "B1").errors := by
  have h := c6_unknown_function_diagnostics.1 "MAXX(A1)".toList "=MAXX(A1)" "B1" "MAXX"
    (by decide) (by decide) (by decide)
  simpa using h
